import Mathlib

/-!
# A shallow embedding of the "O" language runtime library (`runtime.c`)

The C runtime provides two data structures:

* fixed-length arrays of `void *` element references (`o_array_new`,
  `o_array_length`, `o_array_get`, `o_array_set`, with the bounds check
  `ensure_array_bounds` that calls `abort()` on violation), and
* singly-linked lists of `void *` element references (`o_list_empty`,
  `o_list_singleton`, `o_list_replicate`, `o_list_append`, `o_list_head`,
  `o_list_tail`, `o_list_to_array`, built on the node helper `append_node`).

Embedding conventions:

* A `void *` element reference is `OVal := Option Nat`; `none` models the C
  `NULL` pointer, which the library uses as its empty/no-value marker.
* List nodes and `List` structs live on an explicit heap `RState`:
  node addresses and list-struct addresses are indices into a `List`,
  allocation appends at the end (`malloc` never fails in the model; in the C
  code allocation failure calls `abort()` and never returns).
* A `ListNode *` pointer is `Option Nat` (`none` = `NULL`); a `List *`
  handle is `Option Nat` likewise.
* The C traversal loops (`while (current->next != NULL)`, the two `for`
  loops of `o_list_to_array`) are modelled with an explicit fuel argument;
  every operation passes the node-heap size as fuel, which suffices on every
  well-formed heap because `append_node` always links an existing node to a
  strictly younger (larger-address) node, so chains strictly increase in
  address and are acyclic.
* `abort()` in `o_array_get` / `o_array_set` is modelled by returning
  `none` of an `Option`-typed result: `none` = the process aborted,
  `some r` = the call returned normally with `r`.
* Arrays are modelled as immutable values (`ArrayV`) with functional update;
  no claim concerns aliasing of array handles. `int32_t` lengths and indices
  are modelled as `Int` (the C code never overflows them on reachable
  inputs of the sizes considered here).
-/

/-- An element reference (`void *`); `none` models the C `NULL` pointer,
the library's empty/no-value marker. -/
abbrev OVal := Option Nat

/-- `struct ListNode { void *value; struct ListNode *next; }`;
`next = none` models a `NULL` next pointer. -/
structure ListNode where
  value : OVal
  next : Option Nat
deriving Repr, DecidableEq

/-- The mutable heap of the runtime: `nodes` is the store of `ListNode`
objects (a node pointer is an index into it) and `lists` is the store of
`struct List` objects, each recording its `head` node pointer.
Allocation appends at the end of the corresponding store. -/
structure RState where
  nodes : List ListNode
  lists : List (Option Nat)
deriving Repr, DecidableEq

/-- `struct Array { int32_t length; void **data; }`, modelled as a value. -/
structure ArrayV where
  length : Int
  data : List OVal
deriving Repr, DecidableEq

/-- `o_array_new`: a negative requested length is clamped to `0`; `xcalloc`
zero-initialises the `length` slots, i.e. fills them with `NULL`. -/
def o_array_new (len : Int) : ArrayV :=
  let len' := if len < 0 then 0 else len
  ⟨len', List.replicate len'.toNat none⟩

/-- `o_array_length`: `NULL` array yields `0`. -/
def o_array_length : Option ArrayV → Int
  | none => 0
  | some arr => arr.length

/-- `ensure_array_bounds`: `false` means the C code calls `abort()`. -/
def ensure_array_bounds (a : Option ArrayV) (i : Int) : Bool :=
  match a with
  | none => false
  | some arr => decide (0 ≤ i) && decide (i < arr.length)

/-- `o_array_get`: result `none` models the `abort()` in
`ensure_array_bounds`; `some r` is a normal return of `r`. -/
def o_array_get (a : Option ArrayV) (i : Int) : Option OVal :=
  if ensure_array_bounds a i then
    match a with
    | none => none
    | some arr => some (arr.data.getD i.toNat none)
  else none

/-- `o_array_set`: result `none` models the `abort()` in
`ensure_array_bounds`; `some arr'` is the array after the store. -/
def o_array_set (a : Option ArrayV) (i : Int) (v : OVal) : Option ArrayV :=
  if ensure_array_bounds a i then
    match a with
    | none => none
    | some arr => some ⟨arr.length, arr.data.set i.toNat v⟩
  else none

/-- Read the `head` field of the `List` struct at address `l₀`. -/
def listHead (s : RState) (l₀ : Nat) : Option Nat :=
  (s.lists[l₀]?).getD none

/-- Write the `head` field of the `List` struct at address `l₀`. -/
def setListHead (s : RState) (l₀ : Nat) (h : Option Nat) : RState :=
  ⟨s.nodes, s.lists.set l₀ h⟩

/-- Overwrite the `next` field of the node at address `a`. -/
def setNext (ns : List ListNode) (a : Nat) (nxt : Option Nat) : List ListNode :=
  match ns[a]? with
  | none => ns
  | some nd => ns.set a ⟨nd.value, nxt⟩

/-- The values along a node chain starting at pointer `p`
(`for (node = p; node != NULL; node = node->next)`), with explicit fuel. -/
def chainPtr (ns : List ListNode) : Nat → Option Nat → List OVal
  | _, none => []
  | 0, some _ => []
  | fuel + 1, some a =>
    match ns[a]? with
    | none => []
    | some nd => nd.value :: chainPtr ns fuel nd.next

/-- The `while (current->next != NULL) current = current->next;` loop of
`append_node`: the address of the last node of the chain starting at `a`. -/
def lastAddr (ns : List ListNode) : Nat → Nat → Nat
  | 0, a => a
  | fuel + 1, a =>
    match ns[a]? with
    | none => a
    | some nd =>
      match nd.next with
      | none => a
      | some b => lastAddr ns fuel b

/-- The first loop of `o_list_to_array`: count the nodes of the chain. -/
def countPtr (ns : List ListNode) : Nat → Option Nat → Nat
  | _, none => 0
  | 0, some _ => 0
  | fuel + 1, some a =>
    match ns[a]? with
    | none => 0
    | some nd => countPtr ns fuel nd.next + 1

/-- The second loop of `o_list_to_array`:
`array->data[index++] = node->value;` along the chain. -/
def fillPtr (ns : List ListNode) : Nat → Option Nat → List OVal → Nat → List OVal
  | _, none, data, _ => data
  | 0, some _, data, _ => data
  | fuel + 1, some a, data, i =>
    match ns[a]? with
    | none => data
    | some nd => fillPtr ns fuel nd.next (data.set i nd.value) (i + 1)

/-- `append_node(head, value)`: allocate a fresh node holding `value` with
`next = NULL`; if `head` is `NULL` return the fresh node, otherwise walk to
the last node of `head`'s chain, link it to the fresh node, and return
`head`.  The C code allocates before traversing, so the traversal runs on
the extended heap (the fresh node is unreachable from `head`). -/
def append_node (s : RState) (head : Option Nat) (v : OVal) : RState × Nat :=
  let n₀ := s.nodes.length
  let ns₁ := s.nodes ++ [⟨v, none⟩]
  match head with
  | none => (⟨ns₁, s.lists⟩, n₀)
  | some a =>
    let last := lastAddr ns₁ ns₁.length a
    (⟨setNext ns₁ last (some n₀), s.lists⟩, a)

/-- `allocate_list` / `o_list_empty`: a fresh `List` struct with
`head = NULL`; returns its address. -/
def o_list_empty (s : RState) : RState × Nat :=
  (⟨s.nodes, s.lists ++ [none]⟩, s.lists.length)

/-- `o_list_singleton(value)`. -/
def o_list_singleton (s : RState) (v : OVal) : RState × Nat :=
  let e := o_list_empty s
  let r := append_node e.1 none v
  (setListHead r.1 e.2 (some r.2), e.2)

/-- The `for (i = 0; i < count; ++i) head = append_node(head, value);`
loop of `o_list_replicate`. -/
def replicateLoop (v : OVal) : Nat → RState × Option Nat → RState × Option Nat
  | 0, sh => sh
  | k + 1, sh =>
    let r := append_node sh.1 sh.2 v
    replicateLoop v k (r.1, some r.2)

/-- `o_list_replicate(value, count)`: `count <= 0` yields `o_list_empty`. -/
def o_list_replicate (s : RState) (v : OVal) (count : Int) : RState × Nat :=
  if count ≤ 0 then o_list_empty s
  else
    let e := o_list_empty s
    let r := replicateLoop v count.toNat (e.1, none)
    (setListHead r.1 e.2 r.2, e.2)

/-- `o_list_append(list, value)`: a `NULL` list handle is replaced by a
fresh empty list; then `list->head = append_node(list->head, value)` and
the same handle is returned. -/
def o_list_append (s : RState) (l : Option Nat) (v : OVal) : RState × Nat :=
  let sl : RState × Nat :=
    match l with
    | none => o_list_empty s
    | some l₀ => (s, l₀)
  let r := append_node sl.1 (listHead sl.1 sl.2) v
  (setListHead r.1 sl.2 (some r.2), sl.2)

/-- `o_list_head(list)`: `NULL` (the empty marker) for a `NULL` handle or
an empty list, otherwise `list->head->value`. -/
def o_list_head (s : RState) (l : Option Nat) : OVal :=
  match l with
  | none => none
  | some l₀ =>
    match listHead s l₀ with
    | none => none
    | some a => ((s.nodes[a]?).getD ⟨none, none⟩).value

/-- `o_list_tail(list)`: allocate a fresh empty result list; if `list` is
`NULL` or empty return it as is, otherwise point it at
`list->head->next` (the suffix chain is shared, not copied). -/
def o_list_tail (s : RState) (l : Option Nat) : RState × Nat :=
  let e := o_list_empty s
  match l with
  | none => e
  | some l₀ =>
    match listHead e.1 l₀ with
    | none => e
    | some a => (setListHead e.1 e.2 ((e.1.nodes[a]?).getD ⟨none, none⟩).next, e.2)

/-- `o_list_to_array(list)`: count the chain, allocate an array of that
length, then copy the chain values into it in order. -/
def o_list_to_array (s : RState) (l : Option Nat) : ArrayV :=
  let h : Option Nat :=
    match l with
    | none => none
    | some l₀ => listHead s l₀
  let fuel := s.nodes.length
  let len := countPtr s.nodes fuel h
  let arr := o_array_new (Int.ofNat len)
  ⟨arr.length, fillPtr s.nodes fuel h arr.data 0⟩

/-- Well-formedness of one node: its `next` pointer, if non-`NULL`, points
to a strictly younger node that exists in the heap.  Every heap reachable
by the runtime operations satisfies this at every node, because
`append_node` always links the old last node to the freshly allocated
(larger-address) node. -/
def nodeWFB (len a : Nat) (nd : ListNode) : Bool :=
  match nd.next with
  | none => true
  | some b => decide (a < b) && decide (b < len)

/-- Well-formedness of the node heap: every stored node is well-formed. -/
def heapWF (ns : List ListNode) : Prop :=
  ∀ a, (h : a < ns.length) → nodeWFB ns.length a ((ns[a]?).getD ⟨none, none⟩) = true

instance (ns : List ListNode) : Decidable (heapWF ns) :=
  Nat.decidableBallLT ns.length _

/-- Well-formedness of a node pointer: `NULL` or a valid heap address. -/
def ptrWFB (len : Nat) : Option Nat → Bool
  | none => true
  | some a => decide (a < len)

/-- Well-formedness of the list store: every allocated `List` struct's
head pointer is `NULL` or a valid address of a heap of size `len`. -/
def headsWF (len : Nat) (ls : List (Option Nat)) : Prop :=
  ∀ l, (h : l < ls.length) → ptrWFB len ((ls[l]?).getD none) = true

instance (len : Nat) (ls : List (Option Nat)) : Decidable (headsWF len ls) :=
  Nat.decidableBallLT ls.length _

/-- Well-formedness of the full runtime state. -/
def stateWF (s : RState) : Prop :=
  heapWF s.nodes ∧ headsWF s.nodes.length s.lists

instance (s : RState) : Decidable (stateWF s) :=
  inferInstanceAs (Decidable (_ ∧ _))

/-- Validity of a `List *` handle: `NULL` or the address of an allocated
`List` struct. -/
def handleOk (s : RState) : Option Nat → Prop
  | none => True
  | some l₀ => l₀ < s.lists.length

instance (s : RState) : (l : Option Nat) → Decidable (handleOk s l)
  | none => isTrue trivial
  | some l₀ => Nat.decLt l₀ s.lists.length

/-- The mathematical contents of the list denoted by handle `l`: the values
of its node chain in order (`[]` for a `NULL` handle).  This is the
abstraction against which the loop-based operations are verified. -/
def listVals (s : RState) (l : Option Nat) : List OVal :=
  match l with
  | none => []
  | some l₀ => chainPtr s.nodes s.nodes.length (listHead s l₀)

/-- An `ArrayV` as produced by `o_array_new`: the backing store has
exactly `length` slots. -/
def arrayWF (arr : ArrayV) : Prop :=
  0 ≤ arr.length ∧ arr.data.length = arr.length.toNat

instance (arr : ArrayV) : Decidable (arrayWF arr) :=
  inferInstanceAs (Decidable (_ ∧ _))

/-- The empty initial runtime state (no nodes, no list structs). -/
def emptyState : RState := ⟨[], []⟩

/-! ## Basic lemmas about the heap primitives -/

theorem chainPtr_nil (ns : List ListNode) (f : Nat) : chainPtr ns f none = [] := by
  cases f <;> rfl

theorem countPtr_nil (ns : List ListNode) (f : Nat) : countPtr ns f none = 0 := by
  cases f <;> rfl

theorem fillPtr_nil (ns : List ListNode) (f : Nat) (data : List OVal) (i : Nat) :
    fillPtr ns f none data i = data := by
  cases f <;> rfl

theorem heapWF_next {ns : List ListNode} (hwf : heapWF ns) {a : Nat} {nd : ListNode}
    (hg : ns[a]? = some nd) {b : Nat} (hb : nd.next = some b) :
    a < b ∧ b < ns.length := by
  have ha : a < ns.length := by
    by_contra h
    rw [List.getElem?_eq_none (by omega)] at hg
    exact Option.noConfusion hg
  have := hwf a ha
  rw [hg] at this
  simp only [Option.getD_some, nodeWFB, hb, Bool.and_eq_true, decide_eq_true_eq] at this
  exact this

theorem lt_of_getElem?_eq_some {ns : List ListNode} {a : Nat} {nd : ListNode}
    (hg : ns[a]? = some nd) : a < ns.length := by
  by_contra h
  rw [List.getElem?_eq_none (by omega)] at hg
  exact Option.noConfusion hg

theorem setNext_getElem? (ns : List ListNode) (a : Nat) (nxt : Option Nat) (j : Nat) :
    (setNext ns a nxt)[j]? =
      if a = j then (ns[j]?).map (fun nd => ⟨nd.value, nxt⟩) else ns[j]? := by
  unfold setNext
  cases h : ns[a]? with
  | none =>
    by_cases hj : a = j
    · subst hj; rw [if_pos rfl, h]; rfl
    · rw [if_neg hj]
  | some nd =>
    have ha : a < ns.length := lt_of_getElem?_eq_some h
    rw [List.getElem?_set]
    by_cases hj : a = j
    · subst hj; rw [if_pos rfl, if_pos rfl, if_pos ha, h]; rfl
    · rw [if_neg hj, if_neg hj]

theorem setNext_length (ns : List ListNode) (a : Nat) (nxt : Option Nat) :
    (setNext ns a nxt).length = ns.length := by
  unfold setNext
  cases h : ns[a]? with
  | none => rfl
  | some nd => exact List.length_set ns a _

/-! ## Fuel stability and heap-extension lemmas

On a well-formed heap, chains strictly increase in address, so any fuel of
at least `ns.length - a` computes the full chain from address `a`, and
appending fresh nodes at the end of the heap leaves existing chains
untouched. -/

theorem chainPtr_stable {ns : List ListNode} (hwf : heapWF ns) :
    ∀ f g a, a < ns.length → ns.length - a ≤ f → ns.length - a ≤ g →
      chainPtr ns f (some a) = chainPtr ns g (some a) := by
  intro f
  induction f with
  | zero => intro g a ha hf _; omega
  | succ f ih =>
    intro g a ha hf hg
    obtain ⟨g', rfl⟩ : ∃ g', g = g' + 1 := ⟨g - 1, by omega⟩
    obtain ⟨nd, hnd⟩ : ∃ nd, ns[a]? = some nd := ⟨ns[a], List.getElem?_eq_some.mpr ⟨ha, rfl⟩⟩
    simp only [chainPtr, hnd]
    cases hnx : nd.next with
    | none => simp [chainPtr_nil]
    | some b =>
      obtain ⟨hab, hb⟩ := heapWF_next hwf hnd hnx
      rw [ih g' b hb (by omega) (by omega)]

theorem lastAddr_stable {ns : List ListNode} (hwf : heapWF ns) :
    ∀ f g a, a < ns.length → ns.length - a ≤ f → ns.length - a ≤ g →
      lastAddr ns f a = lastAddr ns g a := by
  intro f
  induction f with
  | zero => intro g a ha hf _; omega
  | succ f ih =>
    intro g a ha hf hg
    obtain ⟨g', rfl⟩ : ∃ g', g = g' + 1 := ⟨g - 1, by omega⟩
    obtain ⟨nd, hnd⟩ : ∃ nd, ns[a]? = some nd := ⟨ns[a], List.getElem?_eq_some.mpr ⟨ha, rfl⟩⟩
    simp only [lastAddr, hnd]
    cases hnx : nd.next with
    | none => rfl
    | some b =>
      obtain ⟨hab, hb⟩ := heapWF_next hwf hnd hnx
      exact ih g' b hb (by omega) (by omega)

theorem chainPtr_concat {ns ms : List ListNode} (hwf : heapWF ns) :
    ∀ f a, a < ns.length → chainPtr (ns ++ ms) f (some a) = chainPtr ns f (some a) := by
  intro f
  induction f with
  | zero => intro a _; rfl
  | succ f ih =>
    intro a ha
    obtain ⟨nd, hnd⟩ : ∃ nd, ns[a]? = some nd := ⟨ns[a], List.getElem?_eq_some.mpr ⟨ha, rfl⟩⟩
    have hnd' : (ns ++ ms)[a]? = some nd := by
      rw [List.getElem?_append_left ha]; exact hnd
    simp only [chainPtr, hnd, hnd']
    cases hnx : nd.next with
    | none => simp [chainPtr_nil]
    | some b =>
      obtain ⟨hab, hb⟩ := heapWF_next hwf hnd hnx
      rw [ih b hb]

theorem lastAddr_concat {ns ms : List ListNode} (hwf : heapWF ns) :
    ∀ f a, a < ns.length → lastAddr (ns ++ ms) f a = lastAddr ns f a := by
  intro f
  induction f with
  | zero => intro a _; rfl
  | succ f ih =>
    intro a ha
    obtain ⟨nd, hnd⟩ : ∃ nd, ns[a]? = some nd := ⟨ns[a], List.getElem?_eq_some.mpr ⟨ha, rfl⟩⟩
    have hnd' : (ns ++ ms)[a]? = some nd := by
      rw [List.getElem?_append_left ha]; exact hnd
    simp only [lastAddr, hnd, hnd']
    cases hnx : nd.next with
    | none => rfl
    | some b =>
      obtain ⟨hab, hb⟩ := heapWF_next hwf hnd hnx
      exact ih b hb

theorem lastAddr_spec {ns : List ListNode} (hwf : heapWF ns) :
    ∀ f a, a < ns.length → ns.length - a ≤ f →
      ∃ nd, ns[lastAddr ns f a]? = some nd ∧ nd.next = none := by
  intro f
  induction f with
  | zero => intro a ha hf; omega
  | succ f ih =>
    intro a ha hf
    obtain ⟨nd, hnd⟩ : ∃ nd, ns[a]? = some nd := ⟨ns[a], List.getElem?_eq_some.mpr ⟨ha, rfl⟩⟩
    simp only [lastAddr, hnd]
    cases hnx : nd.next with
    | none => exact ⟨nd, hnd, hnx⟩
    | some b =>
      obtain ⟨hab, hb⟩ := heapWF_next hwf hnd hnx
      exact ih b hb (by omega)

/-! ## The effect of `append_node` on chains

`append_node` allocates the fresh node at the end of the heap and links the
last node of the given chain to it.  Every chain that ends at that same
last node — in particular the chain of any list structurally sharing the
suffix — observes the appended value. -/

theorem appendChainAux {ns : List ListNode} (hwf : heapWF ns) {L : Nat} {ndL : ListNode}
    (hL : ns[L]? = some ndL) (hLn : ndL.next = none) (v : OVal) :
    ∀ f a g, a < ns.length → ns.length - a ≤ f → ns.length + 1 - a ≤ g →
      lastAddr ns f a = L →
      chainPtr (setNext (ns ++ [⟨v, none⟩]) L (some ns.length)) g (some a)
        = chainPtr ns f (some a) ++ [v] := by
  have hLlen : L < ns.length := lt_of_getElem?_eq_some hL
  have hL' : (ns ++ [⟨v, none⟩])[L]? = some ndL := by
    rw [List.getElem?_append_left hLlen]; exact hL
  have hgetL : (setNext (ns ++ [⟨v, none⟩]) L (some ns.length))[L]?
      = some ⟨ndL.value, some ns.length⟩ := by
    rw [setNext_getElem?, if_pos rfl, hL']; rfl
  have hgetNew : (setNext (ns ++ [⟨v, none⟩]) L (some ns.length))[ns.length]?
      = some ⟨v, none⟩ := by
    rw [setNext_getElem?, if_neg (by omega), List.getElem?_concat_length]
  have hgetOld : ∀ j, j < ns.length → j ≠ L →
      (setNext (ns ++ [⟨v, none⟩]) L (some ns.length))[j]? = ns[j]? := by
    intro j hj hjL
    rw [setNext_getElem?, if_neg (fun h => hjL h.symm), List.getElem?_append_left hj]
  intro f
  induction f with
  | zero => intro a g ha hf _ _; omega
  | succ f ih =>
    intro a g ha hf hg hlast
    obtain ⟨g', rfl⟩ : ∃ g', g = g' + 1 := ⟨g - 1, by omega⟩
    obtain ⟨nd, hnd⟩ : ∃ nd, ns[a]? = some nd := ⟨ns[a], List.getElem?_eq_some.mpr ⟨ha, rfl⟩⟩
    cases hnx : nd.next with
    | none =>
      have haL : a = L := by
        simpa only [lastAddr, hnd, hnx] using hlast
      subst haL
      have hndL : nd = ndL := by
        rw [hnd] at hL; exact Option.some_injective _ hL
      subst hndL
      obtain ⟨g'', rfl⟩ : ∃ g'', g' = g'' + 1 := ⟨g' - 1, by omega⟩
      simp only [chainPtr, hnd, hnx, hgetL, hgetNew, chainPtr_nil]
      rfl
    | some b =>
      obtain ⟨hab, hb⟩ := heapWF_next hwf hnd hnx
      have haL : a ≠ L := by
        intro h
        subst h
        rw [hnd] at hL
        have := Option.some_injective _ hL
        rw [this, hLn] at hnx
        exact Option.noConfusion hnx
      have hlast' : lastAddr ns f b = L := by
        simpa only [lastAddr, hnd, hnx] using hlast
      simp only [chainPtr, hnd, hnx, hgetOld a ha haL]
      rw [ih b g' hb (by omega) (by omega) hlast']
      rfl

theorem heapWF_concat {ns : List ListNode} (hwf : heapWF ns) (v : OVal) :
    heapWF (ns ++ [⟨v, none⟩]) := by
  intro a ha
  rw [List.length_append, List.length_singleton] at ha
  by_cases h : a < ns.length
  · have := hwf a h
    rw [List.getElem?_append_left h]
    cases hnx : ((ns[a]?).getD ⟨none, none⟩).next with
    | none => simp [nodeWFB, hnx]
    | some b =>
      simp only [nodeWFB, hnx, Bool.and_eq_true, decide_eq_true_eq] at this ⊢
      constructor
      · exact this.1
      · rw [List.length_append, List.length_singleton]; omega
  · have ha' : a = ns.length := by omega
    subst ha'
    rw [List.getElem?_concat_length]
    simp [nodeWFB]

theorem heapWF_append_node {ns : List ListNode} (hwf : heapWF ns) {L : Nat} {ndL : ListNode}
    (hL : ns[L]? = some ndL) (hLn : ndL.next = none) (v : OVal) :
    heapWF (setNext (ns ++ [⟨v, none⟩]) L (some ns.length)) := by
  have hLlen : L < ns.length := lt_of_getElem?_eq_some hL
  have hext := heapWF_concat hwf v
  intro a ha
  rw [setNext_length] at ha
  rw [setNext_getElem?]
  by_cases haL : L = a
  · subst haL
    have hL' : (ns ++ [⟨v, none⟩])[L]? = some ndL := by
      rw [List.getElem?_append_left hLlen]; exact hL
    rw [if_pos rfl, hL']
    have hlen2 : (ns ++ [(⟨v, none⟩ : ListNode)]).length = ns.length + 1 := by simp
    simp only [Option.map_some', Option.getD_some, nodeWFB, Bool.and_eq_true,
      decide_eq_true_eq, setNext_length, hlen2]
    omega
  · rw [if_neg haL]
    have := hext a ha
    rw [setNext_length]
    exact this

theorem ptrWFB_mono {len len' : Nat} (h : len ≤ len') :
    ∀ p, ptrWFB len p = true → ptrWFB len' p = true := by
  intro p hp
  cases p with
  | none => rfl
  | some a =>
    simp only [ptrWFB, decide_eq_true_eq] at hp ⊢
    omega

/-- Summary of `append_node`: the list store is untouched, one node is
allocated, well-formedness is preserved, and the chain of the returned
head pointer is the old chain of `p` with `v` appended. -/
theorem append_node_spec {s : RState} (hwf : heapWF s.nodes) {p : Option Nat}
    (hp : ptrWFB s.nodes.length p = true) (v : OVal) :
    (append_node s p v).1.lists = s.lists ∧
    (append_node s p v).1.nodes.length = s.nodes.length + 1 ∧
    heapWF (append_node s p v).1.nodes ∧
    (append_node s p v).2 < (append_node s p v).1.nodes.length ∧
    chainPtr (append_node s p v).1.nodes (append_node s p v).1.nodes.length
        (some (append_node s p v).2)
      = chainPtr s.nodes s.nodes.length p ++ [v] := by
  have hlen1 : (s.nodes ++ [(⟨v, none⟩ : ListNode)]).length = s.nodes.length + 1 := by simp
  cases p with
  | none =>
    have hgetNew : (s.nodes ++ [(⟨v, none⟩ : ListNode)])[s.nodes.length]? = some ⟨v, none⟩ :=
      List.getElem?_concat_length _ _
    have hres : append_node s none v
        = (⟨s.nodes ++ [⟨v, none⟩], s.lists⟩, s.nodes.length) := rfl
    refine ⟨by rw [hres], by rw [hres]; exact hlen1, ?_, ?_, ?_⟩
    · rw [hres]; exact heapWF_concat hwf v
    · rw [hres]
      show s.nodes.length < (s.nodes ++ [(⟨v, none⟩ : ListNode)]).length
      omega
    · rw [hres]
      show chainPtr (s.nodes ++ [⟨v, none⟩]) (s.nodes ++ [(⟨v, none⟩ : ListNode)]).length
          (some s.nodes.length) = chainPtr s.nodes s.nodes.length none ++ [v]
      rw [hlen1, chainPtr_nil]
      simp only [chainPtr, hgetNew, chainPtr_nil]
      rfl
  | some a =>
    have ha : a < s.nodes.length := by
      simpa only [ptrWFB, decide_eq_true_eq] using hp
    have hconcat := @lastAddr_concat s.nodes [(⟨v, none⟩ : ListNode)] hwf (s.nodes.length + 1) a ha
    obtain ⟨ndL, hL, hLn⟩ := lastAddr_spec hwf (s.nodes.length + 1) a ha (by omega)
    have hstab : lastAddr s.nodes s.nodes.length a = lastAddr s.nodes (s.nodes.length + 1) a :=
      lastAddr_stable hwf _ _ a ha (by omega) (by omega)
    have hres : append_node s (some a) v
        = (⟨setNext (s.nodes ++ [⟨v, none⟩])
              (lastAddr (s.nodes ++ [⟨v, none⟩]) (s.nodes ++ [(⟨v, none⟩ : ListNode)]).length a)
              (some s.nodes.length), s.lists⟩, a) := rfl
    rw [hres]
    simp only [hlen1, hconcat, setNext_length]
    refine ⟨trivial, trivial, ?_, by omega, ?_⟩
    · exact heapWF_append_node hwf hL hLn v
    · exact appendChainAux hwf hL hLn v s.nodes.length a (s.nodes.length + 1) ha
        (by omega) (by omega) hstab

/-! ## Specifications of the full list operations -/

theorem headsWF_mono {len len' : Nat} (h : len ≤ len') {ls : List (Option Nat)}
    (hh : headsWF len ls) : headsWF len' ls := by
  intro l hl
  exact ptrWFB_mono h _ (hh l hl)

theorem headsWF_concat_none {len : Nat} {ls : List (Option Nat)}
    (hh : headsWF len ls) : headsWF len (ls ++ [none]) := by
  intro l hl
  rw [List.length_append, List.length_singleton] at hl
  by_cases h : l < ls.length
  · rw [List.getElem?_append_left h]
    exact hh l h
  · have hl' : l = ls.length := by omega
    subst hl'
    rw [List.getElem?_concat_length]
    rfl

theorem headsWF_set {len : Nat} {ls : List (Option Nat)} {L : Nat} {p : Option Nat}
    (hh : headsWF len ls) (hp : ptrWFB len p = true) : headsWF len (ls.set L p) := by
  intro l hl
  rw [List.length_set] at hl
  rw [List.getElem?_set]
  by_cases h : L = l
  · rw [if_pos h, if_pos (h ▸ hl)]
    exact hp
  · rw [if_neg h]
    exact hh l hl

theorem listHead_set_self {s : RState} {L : Nat} {p : Option Nat} (hL : L < s.lists.length) :
    listHead (setListHead s L p) L = p := by
  simp [listHead, setListHead, List.getElem?_set, hL]

theorem o_list_append_none_spec {s : RState} (hwf : stateWF s) (v : OVal) :
    stateWF (o_list_append s none v).1 ∧
    (o_list_append s none v).2 < (o_list_append s none v).1.lists.length ∧
    listVals (o_list_append s none v).1 (some (o_list_append s none v).2) = [v] := by
  have hhead : listHead (⟨s.nodes, s.lists ++ [none]⟩ : RState) s.lists.length = none := by
    simp [listHead, List.getElem?_concat_length]
  have hwf1 : heapWF (⟨s.nodes, s.lists ++ [none]⟩ : RState).nodes := hwf.1
  have hp : ptrWFB (⟨s.nodes, s.lists ++ [none]⟩ : RState).nodes.length none = true := rfl
  obtain ⟨hlists, hlen, hWF, hret, hchain⟩ := append_node_spec hwf1 hp v
  have hres : o_list_append s none v
      = (setListHead (append_node ⟨s.nodes, s.lists ++ [none]⟩ none v).1 s.lists.length
          (some (append_node ⟨s.nodes, s.lists ++ [none]⟩ none v).2), s.lists.length) := by
    show (setListHead (append_node ⟨s.nodes, s.lists ++ [none]⟩
        (listHead ⟨s.nodes, s.lists ++ [none]⟩ s.lists.length) v).1 s.lists.length
        (some (append_node ⟨s.nodes, s.lists ++ [none]⟩
        (listHead ⟨s.nodes, s.lists ++ [none]⟩ s.lists.length) v).2), s.lists.length) = _
    rw [hhead]
  rw [hres]
  have hLlt : s.lists.length <
      (append_node ⟨s.nodes, s.lists ++ [none]⟩ none v).1.lists.length := by
    rw [hlists]
    simp
  have hlen' : (append_node ⟨s.nodes, s.lists ++ [none]⟩ none v).1.nodes.length
      = s.nodes.length + 1 := hlen
  refine ⟨⟨hWF, ?_⟩, ?_, ?_⟩
  · show headsWF (append_node ⟨s.nodes, s.lists ++ [none]⟩ none v).1.nodes.length
      ((append_node ⟨s.nodes, s.lists ++ [none]⟩ none v).1.lists.set
      s.lists.length (some (append_node ⟨s.nodes, s.lists ++ [none]⟩ none v).2))
    refine headsWF_set ?_ ?_
    · rw [hlists]
      exact headsWF_concat_none (headsWF_mono (by omega) hwf.2)
    · simp only [ptrWFB, decide_eq_true_eq]
      exact hret
  · show s.lists.length < ((append_node ⟨s.nodes, s.lists ++ [none]⟩ none v).1.lists.set
      s.lists.length (some (append_node ⟨s.nodes, s.lists ++ [none]⟩ none v).2)).length
    rw [List.length_set]
    exact hLlt
  · show chainPtr (append_node ⟨s.nodes, s.lists ++ [none]⟩ none v).1.nodes
      (append_node ⟨s.nodes, s.lists ++ [none]⟩ none v).1.nodes.length
      (listHead (setListHead (append_node ⟨s.nodes, s.lists ++ [none]⟩ none v).1
        s.lists.length (some (append_node ⟨s.nodes, s.lists ++ [none]⟩ none v).2))
        s.lists.length) = [v]
    rw [listHead_set_self hLlt, hchain, chainPtr_nil]
    rfl

theorem o_list_append_some_spec {s : RState} (hwf : stateWF s) {l₀ : Nat}
    (hl : l₀ < s.lists.length) (v : OVal) :
    stateWF (o_list_append s (some l₀) v).1 ∧
    (o_list_append s (some l₀) v).2 = l₀ ∧
    (o_list_append s (some l₀) v).1.lists.length = s.lists.length ∧
    (o_list_append s (some l₀) v).1.nodes.length = s.nodes.length + 1 ∧
    listVals (o_list_append s (some l₀) v).1 (some l₀) = listVals s (some l₀) ++ [v] := by
  have hp : ptrWFB s.nodes.length (listHead s l₀) = true := hwf.2 l₀ hl
  obtain ⟨hlists, hlen, hWF, hret, hchain⟩ := append_node_spec hwf.1 hp v
  have hres : o_list_append s (some l₀) v
      = (setListHead (append_node s (listHead s l₀) v).1 l₀
          (some (append_node s (listHead s l₀) v).2), l₀) := rfl
  rw [hres]
  have hlA : l₀ < (append_node s (listHead s l₀) v).1.lists.length := by
    rw [hlists]; exact hl
  refine ⟨⟨hWF, ?_⟩, rfl, ?_, hlen, ?_⟩
  · show headsWF (append_node s (listHead s l₀) v).1.nodes.length
      ((append_node s (listHead s l₀) v).1.lists.set l₀
        (some (append_node s (listHead s l₀) v).2))
    refine headsWF_set ?_ ?_
    · rw [hlists]
      exact headsWF_mono (by omega) hwf.2
    · simp only [ptrWFB, decide_eq_true_eq]
      exact hret
  · show ((append_node s (listHead s l₀) v).1.lists.set l₀
      (some (append_node s (listHead s l₀) v).2)).length = s.lists.length
    rw [List.length_set, hlists]
  · show chainPtr (append_node s (listHead s l₀) v).1.nodes
      (append_node s (listHead s l₀) v).1.nodes.length
      (listHead (setListHead (append_node s (listHead s l₀) v).1 l₀
        (some (append_node s (listHead s l₀) v).2)) l₀) = listVals s (some l₀) ++ [v]
    rw [listHead_set_self hlA, hchain]
    rfl

theorem o_list_tail_spec {s : RState} (hwf : stateWF s) {l₀ : Nat}
    (hl : l₀ < s.lists.length) :
    (o_list_tail s (some l₀)).1.nodes = s.nodes ∧
    (o_list_tail s (some l₀)).2 = s.lists.length ∧
    (o_list_tail s (some l₀)).1.lists.length = s.lists.length + 1 ∧
    stateWF (o_list_tail s (some l₀)).1 ∧
    listVals (o_list_tail s (some l₀)).1 (some (o_list_tail s (some l₀)).2)
      = (listVals s (some l₀)).drop 1 ∧
    listVals (o_list_tail s (some l₀)).1 (some l₀) = listVals s (some l₀) ∧
    o_list_head (o_list_tail s (some l₀)).1 (some l₀) = o_list_head s (some l₀) := by
  have hheadeq : listHead (⟨s.nodes, s.lists ++ [none]⟩ : RState) l₀ = listHead s l₀ := by
    simp only [listHead, List.getElem?_append_left hl]
  cases hh : listHead s l₀ with
  | none =>
    have hres : o_list_tail s (some l₀)
        = (⟨s.nodes, s.lists ++ [none]⟩, s.lists.length) := by
      simp only [o_list_tail, o_list_empty]
      rw [hheadeq, hh]
    rw [hres]
    have hfreshHead : listHead (⟨s.nodes, s.lists ++ [none]⟩ : RState) s.lists.length = none := by
      simp [listHead, List.getElem?_concat_length]
    refine ⟨rfl, rfl, by simp, ⟨hwf.1, headsWF_concat_none hwf.2⟩, ?_, ?_, ?_⟩
    · show chainPtr s.nodes s.nodes.length
        (listHead (⟨s.nodes, s.lists ++ [none]⟩ : RState) s.lists.length)
        = (listVals s (some l₀)).drop 1
      rw [hfreshHead, chainPtr_nil]
      show _ = (chainPtr s.nodes s.nodes.length (listHead s l₀)).drop 1
      rw [hh, chainPtr_nil]
      rfl
    · show chainPtr s.nodes s.nodes.length
        (listHead (⟨s.nodes, s.lists ++ [none]⟩ : RState) l₀) = listVals s (some l₀)
      rw [hheadeq]
      rfl
    · simp only [o_list_head, hheadeq]
  | some a =>
    have ha : a < s.nodes.length := by
      have := hwf.2 l₀ hl
      rw [show (s.lists[l₀]?).getD none = listHead s l₀ from rfl, hh] at this
      simpa only [ptrWFB, decide_eq_true_eq] using this
    obtain ⟨nd, hnd⟩ : ∃ nd, s.nodes[a]? = some nd :=
      ⟨s.nodes[a], List.getElem?_eq_some.mpr ⟨ha, rfl⟩⟩
    have hres : o_list_tail s (some l₀)
        = (setListHead ⟨s.nodes, s.lists ++ [none]⟩ s.lists.length nd.next,
            s.lists.length) := by
      simp only [o_list_tail, o_list_empty]
      rw [hheadeq, hh]
      simp only [hnd, Option.getD_some]
    rw [hres]
    have hnext : ptrWFB s.nodes.length nd.next = true := by
      cases hnx : nd.next with
      | none => rfl
      | some b =>
        obtain ⟨hab, hb⟩ := heapWF_next hwf.1 hnd hnx
        simp only [ptrWFB, decide_eq_true_eq]
        exact hb
    have hLlt : s.lists.length < (⟨s.nodes, s.lists ++ [none]⟩ : RState).lists.length := by
      simp
    have hheadHere : listHead (setListHead ⟨s.nodes, s.lists ++ [none]⟩
        s.lists.length nd.next) l₀ = listHead s l₀ := by
      simp only [listHead, setListHead, List.getElem?_set, if_neg (by omega : ¬s.lists.length = l₀)]
      rw [List.getElem?_append_left hl]
    refine ⟨rfl, rfl, by simp [setListHead], ⟨hwf.1, ?_⟩, ?_, ?_, ?_⟩
    · exact headsWF_set (headsWF_concat_none hwf.2) hnext
    · show chainPtr s.nodes s.nodes.length
        (listHead (setListHead ⟨s.nodes, s.lists ++ [none]⟩ s.lists.length nd.next)
          s.lists.length) = (listVals s (some l₀)).drop 1
      rw [listHead_set_self hLlt]
      show _ = (chainPtr s.nodes s.nodes.length (listHead s l₀)).drop 1
      rw [hh]
      obtain ⟨N', hN⟩ : ∃ N', s.nodes.length = N' + 1 := ⟨s.nodes.length - 1, by omega⟩
      rw [hN]
      simp only [chainPtr, hnd, List.drop_succ_cons, List.drop_zero]
      cases hnx : nd.next with
      | none => simp [chainPtr_nil]
      | some b =>
        obtain ⟨hab, hb⟩ := heapWF_next hwf.1 hnd hnx
        exact chainPtr_stable hwf.1 (N' + 1) N' b hb (by omega) (by omega)
    · show chainPtr s.nodes s.nodes.length
        (listHead (setListHead ⟨s.nodes, s.lists ++ [none]⟩ s.lists.length nd.next) l₀)
        = listVals s (some l₀)
      rw [hheadHere]
      rfl
    · simp only [o_list_head, hheadHere]
      rfl

/-! ## Correctness of `o_list_to_array` -/

theorem countPtr_eq_length (ns : List ListNode) :
    ∀ f p, countPtr ns f p = (chainPtr ns f p).length := by
  intro f
  induction f with
  | zero => intro p; cases p <;> rfl
  | succ f ih =>
    intro p
    cases p with
    | none => rfl
    | some a =>
      cases h : ns[a]? with
      | none => simp [countPtr, chainPtr, h]
      | some nd => simp [countPtr, chainPtr, h, ih]

theorem take_set_succ {α : Type} :
    ∀ (l : List α) (i : Nat) (x : α), i < l.length →
      (l.set i x).take (i + 1) = l.take i ++ [x] := by
  intro l
  induction l with
  | nil => intro i x h; simp at h
  | cons a l ih =>
    intro i x h
    cases i with
    | zero => rfl
    | succ i =>
      have hi : i < l.length := by simpa using h
      simp only [List.set_cons_succ, List.take_succ_cons, ih i x hi, List.cons_append]

theorem fillPtr_spec (ns : List ListNode) :
    ∀ f p (data : List OVal) (i : Nat),
      data.length = i + (chainPtr ns f p).length →
      fillPtr ns f p data i = data.take i ++ chainPtr ns f p := by
  intro f
  induction f with
  | zero =>
    intro p data i h
    cases p with
    | none =>
      simp only [chainPtr_nil, List.length_nil] at h
      rw [chainPtr_nil, fillPtr_nil, List.append_nil,
        show i = data.length from by omega, List.take_length]
    | some a =>
      simp only [show chainPtr ns 0 (some a) = [] from rfl, List.length_nil] at h
      rw [show chainPtr ns 0 (some a) = [] from rfl,
        show fillPtr ns 0 (some a) data i = data from rfl, List.append_nil,
        show i = data.length from by omega, List.take_length]
  | succ f ih =>
    intro p data i h
    cases p with
    | none =>
      simp only [chainPtr_nil, List.length_nil] at h
      rw [chainPtr_nil, fillPtr_nil, List.append_nil,
        show i = data.length from by omega, List.take_length]
    | some a =>
      cases hnd : ns[a]? with
      | none =>
        simp only [chainPtr, hnd, List.length_nil] at h
        simp only [chainPtr, fillPtr, hnd]
        rw [List.append_nil, show i = data.length from by omega, List.take_length]
      | some nd =>
        simp only [chainPtr, hnd, List.length_cons] at h
        simp only [fillPtr, chainPtr, hnd]
        have hlen : i < data.length := by omega
        have hset : (data.set i nd.value).length
            = (i + 1) + (chainPtr ns f nd.next).length := by
          rw [List.length_set]
          omega
        rw [ih nd.next (data.set i nd.value) (i + 1) hset, take_set_succ data i nd.value hlen,
          List.append_assoc, List.singleton_append]

theorem o_array_new_ofNat (n : Nat) :
    o_array_new (Int.ofNat n) = ⟨Int.ofNat n, List.replicate n none⟩ := by
  have h : ¬(Int.ofNat n < 0) := Int.not_lt.mpr (Int.ofNat_nonneg n)
  simp only [o_array_new, if_neg h]
  rfl

theorem to_array_spec {s : RState} (hwf : stateWF s) {l : Option Nat} (hl : handleOk s l) :
    o_list_to_array s l = ⟨Int.ofNat (listVals s l).length, listVals s l⟩ := by
  cases l with
  | none =>
    have hres : o_list_to_array s none
        = ⟨(o_array_new (Int.ofNat (countPtr s.nodes s.nodes.length none))).length,
           fillPtr s.nodes s.nodes.length none
             (o_array_new (Int.ofNat (countPtr s.nodes s.nodes.length none))).data 0⟩ := rfl
    rw [hres, countPtr_nil, fillPtr_nil, o_array_new_ofNat]
    rfl
  | some l₀ =>
    have hcount : countPtr s.nodes s.nodes.length (listHead s l₀)
        = (chainPtr s.nodes s.nodes.length (listHead s l₀)).length :=
      countPtr_eq_length s.nodes s.nodes.length (listHead s l₀)
    have hres : o_list_to_array s (some l₀)
        = ⟨(o_array_new (Int.ofNat (countPtr s.nodes s.nodes.length (listHead s l₀)))).length,
           fillPtr s.nodes s.nodes.length (listHead s l₀)
             (o_array_new (Int.ofNat (countPtr s.nodes s.nodes.length (listHead s l₀)))).data
             0⟩ := rfl
    rw [hres, hcount, o_array_new_ofNat]
    have hfill := fillPtr_spec s.nodes s.nodes.length (listHead s l₀)
      (List.replicate (chainPtr s.nodes s.nodes.length (listHead s l₀)).length none) 0
      (by rw [List.length_replicate]; omega)
    rw [show ((⟨Int.ofNat (chainPtr s.nodes s.nodes.length (listHead s l₀)).length,
        List.replicate (chainPtr s.nodes s.nodes.length (listHead s l₀)).length none⟩ :
        ArrayV)).data = List.replicate (chainPtr s.nodes s.nodes.length
        (listHead s l₀)).length none from rfl, hfill, List.take_zero, List.nil_append]
    rfl

/-! ## `o_list_replicate` and `o_list_singleton` -/

theorem replicateLoop_spec (v : OVal) :
    ∀ k (s : RState) (p : Option Nat), heapWF s.nodes → ptrWFB s.nodes.length p = true →
      heapWF (replicateLoop v k (s, p)).1.nodes ∧
      (replicateLoop v k (s, p)).1.lists = s.lists ∧
      s.nodes.length ≤ (replicateLoop v k (s, p)).1.nodes.length ∧
      ptrWFB (replicateLoop v k (s, p)).1.nodes.length (replicateLoop v k (s, p)).2 = true ∧
      chainPtr (replicateLoop v k (s, p)).1.nodes (replicateLoop v k (s, p)).1.nodes.length
          (replicateLoop v k (s, p)).2
        = chainPtr s.nodes s.nodes.length p ++ List.replicate k v := by
  intro k
  induction k with
  | zero =>
    intro s p hwf hp
    refine ⟨hwf, rfl, le_refl _, hp, ?_⟩
    rw [List.replicate_zero, List.append_nil]
    rfl
  | succ k ih =>
    intro s p hwf hp
    obtain ⟨hlists, hlen, hWF, hret, hchain⟩ := append_node_spec hwf hp v
    have hres : replicateLoop v (k + 1) (s, p)
        = replicateLoop v k ((append_node s p v).1, some (append_node s p v).2) := rfl
    rw [hres]
    have hp' : ptrWFB (append_node s p v).1.nodes.length
        (some (append_node s p v).2) = true := by
      simp only [ptrWFB, decide_eq_true_eq]
      exact hret
    obtain ⟨h1, h2, h3, h4, h5⟩ := ih (append_node s p v).1 (some (append_node s p v).2) hWF hp'
    refine ⟨h1, by rw [h2, hlists], by omega, h4, ?_⟩
    rw [h5, hchain, List.append_assoc, List.singleton_append, ← List.replicate_succ]

theorem o_list_replicate_spec {s : RState} (hwf : stateWF s) (v : OVal) (count : Int) :
    stateWF (o_list_replicate s v count).1 ∧
    (o_list_replicate s v count).2 < (o_list_replicate s v count).1.lists.length ∧
    listVals (o_list_replicate s v count).1 (some (o_list_replicate s v count).2)
      = List.replicate count.toNat v := by
  have hfreshHead : listHead (⟨s.nodes, s.lists ++ [none]⟩ : RState) s.lists.length = none := by
    simp [listHead, List.getElem?_concat_length]
  by_cases hc : count ≤ 0
  · have hres : o_list_replicate s v count = o_list_empty s := by
      simp only [o_list_replicate, if_pos hc]
    rw [hres]
    have hcnt : count.toNat = 0 := by omega
    refine ⟨⟨hwf.1, headsWF_concat_none hwf.2⟩, by simp [o_list_empty], ?_⟩
    show chainPtr s.nodes s.nodes.length
      (listHead (⟨s.nodes, s.lists ++ [none]⟩ : RState) s.lists.length) = _
    rw [hfreshHead, chainPtr_nil, hcnt, List.replicate_zero]
  · have hres : o_list_replicate s v count
        = (setListHead (replicateLoop v count.toNat (⟨s.nodes, s.lists ++ [none]⟩, none)).1
            s.lists.length
            (replicateLoop v count.toNat (⟨s.nodes, s.lists ++ [none]⟩, none)).2,
           s.lists.length) := by
      simp only [o_list_replicate, if_neg hc, o_list_empty]
    obtain ⟨h1, h2, h3, h4, h5⟩ := replicateLoop_spec v count.toNat
      ⟨s.nodes, s.lists ++ [none]⟩ none hwf.1 rfl
    rw [hres]
    have hLlt : s.lists.length
        < (replicateLoop v count.toNat (⟨s.nodes, s.lists ++ [none]⟩, none)).1.lists.length := by
      rw [h2]
      simp
    refine ⟨⟨h1, ?_⟩, ?_, ?_⟩
    · show headsWF (replicateLoop v count.toNat
        (⟨s.nodes, s.lists ++ [none]⟩, none)).1.nodes.length
        ((replicateLoop v count.toNat (⟨s.nodes, s.lists ++ [none]⟩, none)).1.lists.set
          s.lists.length
          (replicateLoop v count.toNat (⟨s.nodes, s.lists ++ [none]⟩, none)).2)
      rw [h2]
      have h3' : s.nodes.length ≤ (replicateLoop v count.toNat
          (⟨s.nodes, s.lists ++ [none]⟩, none)).1.nodes.length := h3
      exact headsWF_set (headsWF_concat_none (headsWF_mono h3' hwf.2)) h4
    · show s.lists.length < ((replicateLoop v count.toNat
        (⟨s.nodes, s.lists ++ [none]⟩, none)).1.lists.set s.lists.length
          (replicateLoop v count.toNat (⟨s.nodes, s.lists ++ [none]⟩, none)).2).length
      rw [List.length_set]
      exact hLlt
    · show chainPtr (replicateLoop v count.toNat
        (⟨s.nodes, s.lists ++ [none]⟩, none)).1.nodes
        (replicateLoop v count.toNat (⟨s.nodes, s.lists ++ [none]⟩, none)).1.nodes.length
        (listHead (setListHead (replicateLoop v count.toNat
          (⟨s.nodes, s.lists ++ [none]⟩, none)).1 s.lists.length
          (replicateLoop v count.toNat (⟨s.nodes, s.lists ++ [none]⟩, none)).2)
          s.lists.length) = List.replicate count.toNat v
      rw [listHead_set_self hLlt, h5, chainPtr_nil, List.nil_append]

theorem o_list_singleton_spec {s : RState} (hwf : stateWF s) (v : OVal) :
    stateWF (o_list_singleton s v).1 ∧
    (o_list_singleton s v).2 < (o_list_singleton s v).1.lists.length ∧
    listVals (o_list_singleton s v).1 (some (o_list_singleton s v).2) = [v] := by
  have hhead : listHead (⟨s.nodes, s.lists ++ [none]⟩ : RState) s.lists.length = none := by
    simp [listHead, List.getElem?_concat_length]
  have hres : o_list_singleton s v = o_list_append s none v := by
    show _ = (setListHead (append_node ⟨s.nodes, s.lists ++ [none]⟩
        (listHead ⟨s.nodes, s.lists ++ [none]⟩ s.lists.length) v).1 s.lists.length
        (some (append_node ⟨s.nodes, s.lists ++ [none]⟩
        (listHead ⟨s.nodes, s.lists ++ [none]⟩ s.lists.length) v).2), s.lists.length)
    rw [hhead]
    rfl
  rw [hres]
  exact o_list_append_none_spec hwf v

/-! ## Claim theorems -/

theorem ensure_false_iff (a : Option ArrayV) (i : Int) :
    ensure_array_bounds a i = false ↔ a = none ∨ i < 0 ∨ o_array_length a ≤ i := by
  cases a with
  | none => simp [ensure_array_bounds]
  | some arr =>
    simp only [ensure_array_bounds, o_array_length, Bool.and_eq_false_iff,
      decide_eq_false_iff_not]
    constructor
    · intro h
      rcases h with h | h
      · right; left; omega
      · right; right; omega
    · intro h
      rcases h with h | h | h
      · exact absurd h (by simp)
      · left; omega
      · right; omega

/-- Claim C3: `o_array_get` and `o_array_set` abort the process (modelled
as result `none`) exactly when the array is `NULL`, the index is negative,
or the index is at least the array's length; under the complementary
precondition they return normally. -/
theorem claim3_bounds_fatal (a : Option ArrayV) (i : Int) (v : OVal) :
    (o_array_get a i = none ↔ a = none ∨ i < 0 ∨ o_array_length a ≤ i) ∧
    (o_array_set a i v = none ↔ a = none ∨ i < 0 ∨ o_array_length a ≤ i) := by
  have hg : o_array_get a i = none ↔ ensure_array_bounds a i = false := by
    cases a with
    | none => simp [o_array_get, ensure_array_bounds]
    | some arr => cases hb : ensure_array_bounds (some arr) i <;> simp [o_array_get, hb]
  have hs : o_array_set a i v = none ↔ ensure_array_bounds a i = false := by
    cases a with
    | none => simp [o_array_set, ensure_array_bounds]
    | some arr => cases hb : ensure_array_bounds (some arr) i <;> simp [o_array_set, hb]
  exact ⟨hg.trans (ensure_false_iff a i), hs.trans (ensure_false_iff a i)⟩

/-- Claim C4: within bounds, `o_array_get` returns the value most recently
stored there by `o_array_set` (a store at a different index does not affect
it), and returns the empty marker (`NULL`, modelled `none`) for a slot of a
fresh `o_array_new` array that was never set. -/
theorem claim4_get_set (arr : ArrayV) (i j k n : Int) (v : OVal)
    (hwf : arrayWF arr) (hi : 0 ≤ i ∧ i < arr.length)
    (hj : 0 ≤ j ∧ j < arr.length) (hne : j ≠ i)
    (hk : 0 ≤ k ∧ k < o_array_length (some (o_array_new n))) :
    o_array_get (o_array_set (some arr) i v) i = some v ∧
    o_array_get (o_array_set (some arr) j v) i = o_array_get (some arr) i ∧
    o_array_get (some (o_array_new n)) k = some none := by
  have hdata : arr.data.length = arr.length.toNat := hwf.2
  have hbound : ∀ m : Int, 0 ≤ m ∧ m < arr.length →
      ensure_array_bounds (some arr) m = true := by
    intro m hm
    simp only [ensure_array_bounds, Bool.and_eq_true, decide_eq_true_eq]
    exact hm
  have hseti : o_array_set (some arr) i v = some ⟨arr.length, arr.data.set i.toNat v⟩ := by
    simp [o_array_set, hbound i hi]
  have hsetj : o_array_set (some arr) j v = some ⟨arr.length, arr.data.set j.toNat v⟩ := by
    simp [o_array_set, hbound j hj]
  have hboundset : ∀ (d : List OVal),
      ensure_array_bounds (some (⟨arr.length, d⟩ : ArrayV)) i = true := by
    intro d
    simp only [ensure_array_bounds, Bool.and_eq_true, decide_eq_true_eq]
    exact hi
  refine ⟨?_, ?_, ?_⟩
  · rw [hseti]
    simp only [o_array_get, hboundset, if_true]
    have hlt : i.toNat < arr.data.length := by omega
    rw [List.getD_eq_getElem?_getD, List.getElem?_set, if_pos rfl, if_pos hlt]
    rfl
  · rw [hsetj]
    simp only [o_array_get, hboundset, hbound i hi, if_true]
    have hne' : j.toNat ≠ i.toNat := by omega
    rw [List.getD_eq_getElem?_getD, List.getElem?_set, if_neg hne',
      List.getD_eq_getElem?_getD]
  · have hlen : o_array_length (some (o_array_new n)) = if n < 0 then 0 else n := rfl
    rw [hlen] at hk
    have hn : ¬n < 0 := by
      by_contra hc
      rw [if_pos hc] at hk
      omega
    rw [if_neg hn] at hk
    have hb : ensure_array_bounds (some (o_array_new n)) k = true := by
      simp only [ensure_array_bounds, Bool.and_eq_true, decide_eq_true_eq]
      refine ⟨hk.1, ?_⟩
      show k < (o_array_new n).length
      rw [show (o_array_new n).length = if n < 0 then 0 else n from rfl, if_neg hn]
      exact hk.2
    simp only [o_array_get, hb, if_true]
    have hdata' : (o_array_new n).data = List.replicate (if n < 0 then 0 else n).toNat none :=
      rfl
    rw [hdata', if_neg hn, List.getD_eq_getElem?_getD, List.getElem?_replicate,
      if_pos (by omega : k.toNat < n.toNat)]
    rfl

/-- Claim C8: `o_array_length (o_array_new n)` is `n` clamped to zero from
below (`max n 0`), and a successful `o_array_set` never changes the length:
the length is fixed at creation. -/
theorem claim8_create_length (n : Int) (arr arr' : ArrayV) (i : Int) (v : OVal)
    (hset : o_array_set (some arr) i v = some arr') :
    o_array_length (some (o_array_new n)) = max n 0 ∧ arr'.length = arr.length := by
  constructor
  · show (if n < 0 then 0 else n) = max n 0
    omega
  · by_cases hb : ensure_array_bounds (some arr) i = true
    · simp only [o_array_set, hb, if_true] at hset
      have := congrArg ArrayV.length (Option.some_injective _ hset)
      simpa using this.symm
    · simp only [o_array_set] at hset
      rw [if_neg hb] at hset
      exact Option.noConfusion hset

theorem tail_none_vals (s : RState) :
    listVals (o_list_tail s none).1 (some (o_list_tail s none).2) = [] := by
  show chainPtr s.nodes s.nodes.length
    (listHead (⟨s.nodes, s.lists ++ [none]⟩ : RState) s.lists.length) = []
  rw [show listHead (⟨s.nodes, s.lists ++ [none]⟩ : RState) s.lists.length = none from by
    simp [listHead, List.getElem?_concat_length], chainPtr_nil]

/-- Claim C6: `o_list_to_array` returns an array whose length is the node
count of the list's chain and whose data lists the chain's values in append
order; a `NULL` or empty list yields the zero-length array. -/
theorem claim6_to_array (s : RState) (l : Option Nat) (hwf : stateWF s) (hl : handleOk s l) :
    (o_list_to_array s l).length = Int.ofNat (listVals s l).length ∧
    (o_list_to_array s l).data = listVals s l := by
  rw [to_array_spec hwf hl]
  exact ⟨rfl, rfl⟩

/-- Claim C2: converting `o_list_append s l v` to an array yields the
pre-append contents of `l` (taken in the state before the append) followed
by `v`; in particular the length grows by exactly one and the last element
is `v`.  This also covers a `NULL` input handle. -/
theorem claim2_append_to_array (s : RState) (l : Option Nat) (v : OVal)
    (hwf : stateWF s) (hl : handleOk s l) :
    (o_list_to_array (o_list_append s l v).1 (some (o_list_append s l v).2)).length
      = Int.ofNat ((listVals s l).length + 1) ∧
    (o_list_to_array (o_list_append s l v).1 (some (o_list_append s l v).2)).data
      = listVals s l ++ [v] := by
  cases l with
  | none =>
    obtain ⟨hwf', hidx, hvals⟩ := o_list_append_none_spec hwf v
    have hok : handleOk (o_list_append s none v).1 (some (o_list_append s none v).2) := hidx
    rw [to_array_spec hwf' hok, hvals]
    exact ⟨rfl, rfl⟩
  | some l₀ =>
    have hl₀ : l₀ < s.lists.length := hl
    obtain ⟨hwf', hret, hll, hnl, hvals⟩ := o_list_append_some_spec hwf hl₀ v
    have hok : handleOk (o_list_append s (some l₀) v).1
        (some (o_list_append s (some l₀) v).2) := by
      show (o_list_append s (some l₀) v).2 < (o_list_append s (some l₀) v).1.lists.length
      rw [hret, hll]
      exact hl₀
    rw [to_array_spec hwf' hok, hret, hvals]
    constructor
    · rw [List.length_append, List.length_singleton]
    · rfl

/-- Claim C10: for a non-`NULL` list handle, `o_list_append` returns the
very same handle and extends that list's own chain in place: afterwards the
list's contents (as seen through the same handle) end with the appended
value. -/
theorem claim10_append_in_place (s : RState) (l₀ : Nat) (v : OVal)
    (hwf : stateWF s) (hl : l₀ < s.lists.length) :
    (o_list_append s (some l₀) v).2 = l₀ ∧
    listVals (o_list_append s (some l₀) v).1 (some l₀)
      = listVals s (some l₀) ++ [v] := by
  obtain ⟨_, hret, _, _, hvals⟩ := o_list_append_some_spec hwf hl v
  exact ⟨hret, hvals⟩

/-- Claim C5: `o_list_tail` returns a fresh `List` handle (distinct from
its input) whose contents are the input's contents with the first element
removed, never mutates its input — the original handle still observes the
same `o_list_head` and the same contents — and yields an empty list for a
`NULL` input. -/
theorem claim5_tail (s : RState) (l₀ : Nat) (hwf : stateWF s)
    (hl : l₀ < s.lists.length) :
    (o_list_tail s (some l₀)).2 ≠ l₀ ∧
    listVals (o_list_tail s (some l₀)).1 (some (o_list_tail s (some l₀)).2)
      = (listVals s (some l₀)).drop 1 ∧
    o_list_head (o_list_tail s (some l₀)).1 (some l₀) = o_list_head s (some l₀) ∧
    listVals (o_list_tail s (some l₀)).1 (some l₀) = listVals s (some l₀) ∧
    listVals (o_list_tail s none).1 (some (o_list_tail s none).2) = [] := by
  obtain ⟨hnodes, hidx, hlen, hwf', hdrop, hsame, hhead⟩ := o_list_tail_spec hwf hl
  refine ⟨?_, hdrop, hhead, hsame, tail_none_vals s⟩
  rw [hidx]
  omega

/-- Claim C7: operations on absent or empty inputs are not fatal and
return well-defined degenerate results: head of `NULL` or of an empty list
is the empty marker, length of a `NULL` array is `0`, appending to a
`NULL` list behaves as building a singleton (and agrees with
`o_list_singleton`), and tail of `NULL` or of an empty list is an empty
list. -/
theorem claim7_degenerate (s : RState) (l₀ : Nat) (v : OVal)
    (hwf : stateWF s) (hl : l₀ < s.lists.length) :
    o_list_head s none = none ∧
    (listHead s l₀ = none → o_list_head s (some l₀) = none) ∧
    o_array_length none = 0 ∧
    listVals (o_list_append s none v).1 (some (o_list_append s none v).2) = [v] ∧
    listVals (o_list_singleton s v).1 (some (o_list_singleton s v).2) = [v] ∧
    listVals (o_list_tail s none).1 (some (o_list_tail s none).2) = [] ∧
    (listHead s l₀ = none →
      listVals (o_list_tail s (some l₀)).1 (some (o_list_tail s (some l₀)).2) = []) := by
  refine ⟨rfl, ?_, rfl, (o_list_append_none_spec hwf v).2.2,
    (o_list_singleton_spec hwf v).2.2, tail_none_vals s, ?_⟩
  · intro h
    simp [o_list_head, h]
  · intro h
    obtain ⟨_, _, _, _, hdrop, _, _⟩ := o_list_tail_spec hwf hl
    rw [hdrop]
    show (chainPtr s.nodes s.nodes.length (listHead s l₀)).drop 1 = []
    rw [h, chainPtr_nil]
    rfl

/-- Claim C9: `o_list_replicate v count` builds a list of `count` copies of
`v` for positive `count` and an empty list for `count ≤ 0`; its array
conversion has length `max count 0` with every element `v`. -/
theorem claim9_replicate (s : RState) (v : OVal) (count : Int) (hwf : stateWF s) :
    listVals (o_list_replicate s v count).1 (some (o_list_replicate s v count).2)
      = List.replicate count.toNat v ∧
    (o_list_to_array (o_list_replicate s v count).1
        (some (o_list_replicate s v count).2)).length = max count 0 ∧
    (o_list_to_array (o_list_replicate s v count).1
        (some (o_list_replicate s v count).2)).data = List.replicate count.toNat v := by
  obtain ⟨hwf', hidx, hvals⟩ := o_list_replicate_spec hwf v count
  have hok : handleOk (o_list_replicate s v count).1
      (some (o_list_replicate s v count).2) := hidx
  rw [to_array_spec hwf' hok, hvals]
  refine ⟨rfl, ?_, rfl⟩
  rw [List.length_replicate]
  show ((count.toNat : Int)) = max count 0
  omega

/-- The runtime state after building the two-element list `[10, 20]` in the
`List` struct at address `0`, starting from the empty initial state. -/
def demoState : RState :=
  (o_list_append (o_list_append (o_list_empty ⟨[], []⟩).1 (some 0) (some 10)).1
    (some 0) (some 20)).1

/-- Claim C1 counterexample: for the two-element list `L = [10, 20]`
(handle `0` of `demoState`) and `T = o_list_tail L`, appending `30` to `T`
changes what `o_list_to_array` returns through `L`: it returned `[10, 20]`
before the append and returns `[10, 20, 30]` after, because `T` shares
`L`'s suffix chain and `append_node` links the fresh node onto the shared
last node. -/
theorem claim1_counterexample :
    ¬ ((o_list_to_array (o_list_append (o_list_tail demoState (some 0)).1
          (some (o_list_tail demoState (some 0)).2) (some 30)).1 (some 0)).data
        = (o_list_to_array (o_list_tail demoState (some 0)).1 (some 0)).data) := by
  decide

/-- Claim C1, amended: after `T := o_list_tail s (some l₀)` and then
`o_list_append` of `v` to `T`, the original list `l₀` always observes the
same `o_list_head`; its contents are unchanged when it had at most one
node (then `T`'s chain is empty and disjoint), but when it had at least
two nodes the appended value is visible through `l₀` as well — the
contents become the old contents followed by `v` — because `T` shares
`l₀`'s suffix chain and the append mutates the shared last node. -/
theorem claim1_amended (s : RState) (l₀ : Nat) (v : OVal)
    (hwf : stateWF s) (hl : l₀ < s.lists.length) :
    o_list_head (o_list_append (o_list_tail s (some l₀)).1
        (some (o_list_tail s (some l₀)).2) v).1 (some l₀)
      = o_list_head s (some l₀) ∧
    listVals (o_list_append (o_list_tail s (some l₀)).1
        (some (o_list_tail s (some l₀)).2) v).1 (some l₀)
      = (if (listVals s (some l₀)).length ≤ 1 then listVals s (some l₀)
         else listVals s (some l₀) ++ [v]) := by
  have hneM : ¬(s.lists.length = l₀) := by omega
  have hheadeq : listHead (⟨s.nodes, s.lists ++ [none]⟩ : RState) l₀ = listHead s l₀ := by
    simp only [listHead, List.getElem?_append_left hl]
  cases hh : listHead s l₀ with
  | none =>
    have hT : o_list_tail s (some l₀)
        = (⟨s.nodes, s.lists ++ [none]⟩, s.lists.length) := by
      simp only [o_list_tail, o_list_empty]
      rw [hheadeq, hh]
    have hheadT : listHead (⟨s.nodes, s.lists ++ [none]⟩ : RState) s.lists.length = none := by
      simp [listHead, List.getElem?_concat_length]
    have hfinal : (o_list_append (o_list_tail s (some l₀)).1
        (some (o_list_tail s (some l₀)).2) v).1
        = ⟨s.nodes ++ [⟨v, none⟩], (s.lists ++ [none]).set s.lists.length
            (some s.nodes.length)⟩ := by
      rw [hT]
      show setListHead (append_node ⟨s.nodes, s.lists ++ [none]⟩
          (listHead ⟨s.nodes, s.lists ++ [none]⟩ s.lists.length) v).1 s.lists.length
          (some (append_node ⟨s.nodes, s.lists ++ [none]⟩
            (listHead ⟨s.nodes, s.lists ++ [none]⟩ s.lists.length) v).2) = _
      rw [hheadT]
      rfl
    have hfHead : listHead (⟨s.nodes ++ [⟨v, none⟩], (s.lists ++ [none]).set s.lists.length
        (some s.nodes.length)⟩ : RState) l₀ = listHead s l₀ := by
      simp only [listHead, List.getElem?_set, if_neg hneM, List.getElem?_append_left hl]
    rw [hfinal]
    constructor
    · simp only [o_list_head]
      rw [hfHead, hh]
    · simp only [listVals]
      rw [hfHead, hh, chainPtr_nil, chainPtr_nil]
      rw [if_pos (by simp)]
  | some a₀ =>
    have ha₀ : a₀ < s.nodes.length := by
      have := hwf.2 l₀ hl
      rw [show (s.lists[l₀]?).getD none = listHead s l₀ from rfl, hh] at this
      simpa only [ptrWFB, decide_eq_true_eq] using this
    obtain ⟨nd₀, hnd₀⟩ : ∃ nd, s.nodes[a₀]? = some nd :=
      ⟨s.nodes[a₀], List.getElem?_eq_some.mpr ⟨ha₀, rfl⟩⟩
    obtain ⟨N'', hN⟩ : ∃ k, s.nodes.length = k + 1 := ⟨s.nodes.length - 1, by omega⟩
    cases hnx : nd₀.next with
    | none =>
      have hT : o_list_tail s (some l₀)
          = (setListHead ⟨s.nodes, s.lists ++ [none]⟩ s.lists.length none,
              s.lists.length) := by
        simp only [o_list_tail, o_list_empty]
        rw [hheadeq, hh]
        simp only [hnd₀, Option.getD_some, hnx]
      have hheadT : listHead (setListHead ⟨s.nodes, s.lists ++ [none]⟩
          s.lists.length none) s.lists.length = none :=
        listHead_set_self (by simp)
      have hfinal : (o_list_append (o_list_tail s (some l₀)).1
          (some (o_list_tail s (some l₀)).2) v).1
          = ⟨s.nodes ++ [⟨v, none⟩], ((s.lists ++ [none]).set s.lists.length none).set
              s.lists.length (some s.nodes.length)⟩ := by
        rw [hT]
        show setListHead (append_node (setListHead ⟨s.nodes, s.lists ++ [none]⟩
            s.lists.length none)
            (listHead (setListHead ⟨s.nodes, s.lists ++ [none]⟩ s.lists.length none)
              s.lists.length) v).1 s.lists.length
            (some (append_node (setListHead ⟨s.nodes, s.lists ++ [none]⟩
              s.lists.length none)
              (listHead (setListHead ⟨s.nodes, s.lists ++ [none]⟩ s.lists.length none)
                s.lists.length) v).2) = _
        rw [hheadT]
        rfl
      have hfHead : listHead (⟨s.nodes ++ [⟨v, none⟩],
          ((s.lists ++ [none]).set s.lists.length none).set s.lists.length
            (some s.nodes.length)⟩ : RState) l₀ = listHead s l₀ := by
        simp only [listHead, List.getElem?_set, if_neg hneM, List.getElem?_append_left hl]
      have hchainL : chainPtr s.nodes s.nodes.length (some a₀) = [nd₀.value] := by
        rw [hN]
        simp only [chainPtr, hnd₀, hnx, chainPtr_nil]
      rw [hfinal]
      constructor
      · simp only [o_list_head]
        rw [hfHead, hh]
        show (((s.nodes ++ [(⟨v, none⟩ : ListNode)])[a₀]?).getD
            (⟨none, none⟩ : ListNode)).value
          = ((s.nodes[a₀]?).getD (⟨none, none⟩ : ListNode)).value
        rw [List.getElem?_append_left ha₀]
      · simp only [listVals]
        rw [hfHead, hh, hchainL]
        rw [if_pos (by simp)]
        have hcc : chainPtr (s.nodes ++ [⟨v, none⟩])
            (⟨s.nodes ++ [⟨v, none⟩], ((s.lists ++ [none]).set s.lists.length none).set
              s.lists.length (some s.nodes.length)⟩ : RState).nodes.length (some a₀)
            = chainPtr s.nodes
              (⟨s.nodes ++ [⟨v, none⟩], ((s.lists ++ [none]).set s.lists.length none).set
                s.lists.length (some s.nodes.length)⟩ : RState).nodes.length (some a₀) :=
          chainPtr_concat hwf.1 _ a₀ ha₀
        rw [hcc]
        rw [show (⟨s.nodes ++ [⟨v, none⟩], ((s.lists ++ [none]).set s.lists.length none).set
            s.lists.length (some s.nodes.length)⟩ : RState).nodes.length
            = s.nodes.length + 1 from by simp]
        rw [chainPtr_stable hwf.1 (s.nodes.length + 1) s.nodes.length a₀ ha₀
          (by omega) (by omega)]
        exact hchainL
    | some a₁ =>
      obtain ⟨ha01, ha₁⟩ := heapWF_next hwf.1 hnd₀ hnx
      obtain ⟨nd₁, hnd₁⟩ : ∃ nd, s.nodes[a₁]? = some nd :=
        ⟨s.nodes[a₁], List.getElem?_eq_some.mpr ⟨ha₁, rfl⟩⟩
      have hT : o_list_tail s (some l₀)
          = (setListHead ⟨s.nodes, s.lists ++ [none]⟩ s.lists.length (some a₁),
              s.lists.length) := by
        simp only [o_list_tail, o_list_empty]
        rw [hheadeq, hh]
        simp only [hnd₀, Option.getD_some, hnx]
      have hheadT : listHead (setListHead ⟨s.nodes, s.lists ++ [none]⟩
          s.lists.length (some a₁)) s.lists.length = some a₁ :=
        listHead_set_self (by simp)
      have hlen1 : (s.nodes ++ [(⟨v, none⟩ : ListNode)]).length = s.nodes.length + 1 := by
        simp
      have hconcat := @lastAddr_concat s.nodes [(⟨v, none⟩ : ListNode)] hwf.1
        (s.nodes.length + 1) a₁ ha₁
      obtain ⟨ndL, hL, hLn⟩ := lastAddr_spec hwf.1 (s.nodes.length + 1) a₁ ha₁ (by omega)
      have hLlt : lastAddr s.nodes (s.nodes.length + 1) a₁ < s.nodes.length :=
        lt_of_getElem?_eq_some hL
      have ha₀L : ¬(a₀ = lastAddr s.nodes (s.nodes.length + 1) a₁) := by
        intro hc
        rw [← hc, hnd₀] at hL
        have := Option.some_injective _ hL
        rw [← this, hnx] at hLn
        exact Option.noConfusion hLn
      have hfinal : (o_list_append (o_list_tail s (some l₀)).1
          (some (o_list_tail s (some l₀)).2) v).1
          = ⟨setNext (s.nodes ++ [⟨v, none⟩])
                (lastAddr (s.nodes ++ [⟨v, none⟩])
                  (s.nodes ++ [(⟨v, none⟩ : ListNode)]).length a₁)
                (some s.nodes.length),
              ((s.lists ++ [none]).set s.lists.length (some a₁)).set s.lists.length
                (some a₁)⟩ := by
        rw [hT]
        show setListHead (append_node (setListHead ⟨s.nodes, s.lists ++ [none]⟩
            s.lists.length (some a₁))
            (listHead (setListHead ⟨s.nodes, s.lists ++ [none]⟩ s.lists.length (some a₁))
              s.lists.length) v).1 s.lists.length
            (some (append_node (setListHead ⟨s.nodes, s.lists ++ [none]⟩
              s.lists.length (some a₁))
              (listHead (setListHead ⟨s.nodes, s.lists ++ [none]⟩ s.lists.length (some a₁))
                s.lists.length) v).2) = _
        rw [hheadT]
        rfl
      rw [hfinal, hlen1, hconcat]
      have hfHead : listHead (⟨setNext (s.nodes ++ [⟨v, none⟩])
          (lastAddr s.nodes (s.nodes.length + 1) a₁) (some s.nodes.length),
          ((s.lists ++ [none]).set s.lists.length (some a₁)).set s.lists.length
            (some a₁)⟩ : RState) l₀ = listHead s l₀ := by
        simp only [listHead, List.getElem?_set, if_neg hneM, List.getElem?_append_left hl]
      have hlast₀ : lastAddr s.nodes s.nodes.length a₀
          = lastAddr s.nodes (s.nodes.length + 1) a₁ := by
        conv_lhs => rw [hN]
        simp only [lastAddr, hnd₀, hnx]
        exact lastAddr_stable hwf.1 N'' (s.nodes.length + 1) a₁ ha₁ (by omega) (by omega)
      have hClen : 2 ≤ (chainPtr s.nodes s.nodes.length (some a₀)).length := by
        obtain ⟨N₃, hN₃⟩ : ∃ k, N'' = k + 1 := ⟨N'' - 1, by omega⟩
        rw [hN]
        simp only [chainPtr, hnd₀, hnx]
        rw [hN₃]
        simp only [chainPtr, hnd₁, List.length_cons]
        omega
      constructor
      · simp only [o_list_head]
        rw [hfHead, hh]
        show (((setNext (s.nodes ++ [(⟨v, none⟩ : ListNode)])
            (lastAddr s.nodes (s.nodes.length + 1) a₁)
            (some s.nodes.length))[a₀]?).getD (⟨none, none⟩ : ListNode)).value
          = ((s.nodes[a₀]?).getD (⟨none, none⟩ : ListNode)).value
        rw [setNext_getElem?, if_neg (fun hc => ha₀L hc.symm),
          List.getElem?_append_left ha₀]
      · simp only [listVals]
        rw [hfHead, hh]
        rw [if_neg (by omega)]
        rw [show (⟨setNext (s.nodes ++ [⟨v, none⟩])
            (lastAddr s.nodes (s.nodes.length + 1) a₁) (some s.nodes.length),
            ((s.lists ++ [none]).set s.lists.length (some a₁)).set s.lists.length
              (some a₁)⟩ : RState).nodes.length = s.nodes.length + 1 from by
          rw [show (⟨setNext (s.nodes ++ [⟨v, none⟩])
              (lastAddr s.nodes (s.nodes.length + 1) a₁) (some s.nodes.length),
              ((s.lists ++ [none]).set s.lists.length (some a₁)).set s.lists.length
                (some a₁)⟩ : RState).nodes = setNext (s.nodes ++ [⟨v, none⟩])
              (lastAddr s.nodes (s.nodes.length + 1) a₁) (some s.nodes.length) from rfl,
            setNext_length, hlen1]]
        exact appendChainAux hwf.1 hL hLn v s.nodes.length a₀ (s.nodes.length + 1) ha₀
          (by omega) (by omega) hlast₀

/-! ## Concrete witnesses -/

theorem claim1_witness :
    stateWF demoState ∧ 0 < demoState.lists.length ∧
    (o_list_head (o_list_append (o_list_tail demoState (some 0)).1
        (some (o_list_tail demoState (some 0)).2) (some 30)).1 (some 0)
      = o_list_head demoState (some 0) ∧
     listVals (o_list_append (o_list_tail demoState (some 0)).1
        (some (o_list_tail demoState (some 0)).2) (some 30)).1 (some 0)
      = (if (listVals demoState (some 0)).length ≤ 1 then listVals demoState (some 0)
         else listVals demoState (some 0) ++ [some 30])) :=
  ⟨by decide, by decide, claim1_amended demoState 0 (some 30) (by decide) (by decide)⟩

theorem claim2_witness :
    stateWF demoState ∧ handleOk demoState (some 0) ∧
    ((o_list_to_array (o_list_append demoState (some 0) (some 7)).1
        (some (o_list_append demoState (some 0) (some 7)).2)).length
      = Int.ofNat ((listVals demoState (some 0)).length + 1) ∧
     (o_list_to_array (o_list_append demoState (some 0) (some 7)).1
        (some (o_list_append demoState (some 0) (some 7)).2)).data
      = listVals demoState (some 0) ++ [some 7]) :=
  ⟨by decide, by decide,
    claim2_append_to_array demoState (some 0) (some 7) (by decide) (by decide)⟩

theorem claim4_witness :
    arrayWF (o_array_new 3) ∧ ((0 : Int) ≤ 1 ∧ (1 : Int) < (o_array_new 3).length) ∧
    ((0 : Int) ≤ 2 ∧ (2 : Int) < (o_array_new 3).length) ∧ (2 : Int) ≠ 1 ∧
    ((0 : Int) ≤ 0 ∧ (0 : Int) < o_array_length (some (o_array_new 2))) ∧
    (o_array_get (o_array_set (some (o_array_new 3)) 1 (some 5)) 1 = some (some 5) ∧
     o_array_get (o_array_set (some (o_array_new 3)) 2 (some 5)) 1
       = o_array_get (some (o_array_new 3)) 1 ∧
     o_array_get (some (o_array_new 2)) 0 = some none) :=
  ⟨by decide, by decide, by decide, by decide, by decide,
    claim4_get_set (o_array_new 3) 1 2 0 2 (some 5) (by decide) (by decide) (by decide)
      (by decide) (by decide)⟩

theorem claim5_witness :
    stateWF demoState ∧ 0 < demoState.lists.length ∧
    ((o_list_tail demoState (some 0)).2 ≠ 0 ∧
     listVals (o_list_tail demoState (some 0)).1 (some (o_list_tail demoState (some 0)).2)
       = (listVals demoState (some 0)).drop 1 ∧
     o_list_head (o_list_tail demoState (some 0)).1 (some 0)
       = o_list_head demoState (some 0) ∧
     listVals (o_list_tail demoState (some 0)).1 (some 0) = listVals demoState (some 0) ∧
     listVals (o_list_tail demoState none).1 (some (o_list_tail demoState none).2) = []) :=
  ⟨by decide, by decide, claim5_tail demoState 0 (by decide) (by decide)⟩

theorem claim6_witness :
    stateWF demoState ∧ handleOk demoState (some 0) ∧
    ((o_list_to_array demoState (some 0)).length
       = Int.ofNat (listVals demoState (some 0)).length ∧
     (o_list_to_array demoState (some 0)).data = listVals demoState (some 0)) :=
  ⟨by decide, by decide, claim6_to_array demoState (some 0) (by decide) (by decide)⟩

theorem claim7_witness :
    stateWF (o_list_empty demoState).1 ∧ 1 < (o_list_empty demoState).1.lists.length ∧
    (o_list_head (o_list_empty demoState).1 none = none ∧
     (listHead (o_list_empty demoState).1 1 = none →
       o_list_head (o_list_empty demoState).1 (some 1) = none) ∧
     o_array_length none = 0 ∧
     listVals (o_list_append (o_list_empty demoState).1 none (some 4)).1
       (some (o_list_append (o_list_empty demoState).1 none (some 4)).2) = [some 4] ∧
     listVals (o_list_singleton (o_list_empty demoState).1 (some 4)).1
       (some (o_list_singleton (o_list_empty demoState).1 (some 4)).2) = [some 4] ∧
     listVals (o_list_tail (o_list_empty demoState).1 none).1
       (some (o_list_tail (o_list_empty demoState).1 none).2) = [] ∧
     (listHead (o_list_empty demoState).1 1 = none →
       listVals (o_list_tail (o_list_empty demoState).1 (some 1)).1
         (some (o_list_tail (o_list_empty demoState).1 (some 1)).2) = [])) :=
  ⟨by decide, by decide,
    claim7_degenerate (o_list_empty demoState).1 1 (some 4) (by decide) (by decide)⟩

theorem claim8_witness :
    o_array_set (some (o_array_new 3)) 1 (some 5)
      = some (⟨3, [none, some 5, none]⟩ : ArrayV) ∧
    (o_array_length (some (o_array_new 2)) = max 2 0 ∧
     (⟨3, [none, some 5, none]⟩ : ArrayV).length = (o_array_new 3).length) :=
  ⟨by decide,
    claim8_create_length 2 (o_array_new 3) ⟨3, [none, some 5, none]⟩ 1 (some 5) (by decide)⟩

theorem claim9_witness :
    stateWF demoState ∧
    (listVals (o_list_replicate demoState (some 9) 3).1
        (some (o_list_replicate demoState (some 9) 3).2)
      = List.replicate (3 : Int).toNat (some 9) ∧
     (o_list_to_array (o_list_replicate demoState (some 9) 3).1
        (some (o_list_replicate demoState (some 9) 3).2)).length = max 3 0 ∧
     (o_list_to_array (o_list_replicate demoState (some 9) 3).1
        (some (o_list_replicate demoState (some 9) 3).2)).data
       = List.replicate (3 : Int).toNat (some 9)) :=
  ⟨by decide, claim9_replicate demoState (some 9) 3 (by decide)⟩

theorem claim10_witness :
    stateWF demoState ∧ 0 < demoState.lists.length ∧
    ((o_list_append demoState (some 0) (some 30)).2 = 0 ∧
     listVals (o_list_append demoState (some 0) (some 30)).1 (some 0)
       = listVals demoState (some 0) ++ [some 30]) :=
  ⟨by decide, by decide, claim10_append_in_place demoState 0 (some 30) (by decide) (by decide)⟩
